import Mathlib

/-!
# Verification of the ASCII art generator (`ascii-art.py`)

A shallow embedding of the numeric/geometric pipeline of the ASCII art
generator: grayscale-to-character quantization, aspect-corrected resize,
line assembly, and the measurement part of the raster renderer.  Pure
Python functions become Lean functions on `Nat`/`Int`/`ℚ`; Python
exceptions become `Option`/`Except` results.  External collaborators
(PIL image decode/resample, TrueType font metrics) are parameters.
-/

namespace AsciiArt

/-- The character ramp, dark to light (`ASCII_CHARS` in the source). -/
def ASCII_CHARS : List Char :=
  ['#', '@', '%', '8', '9', '$', '7', '*', '?', '+', '-', ';', ':', ',', '.', ' ']

/-- `ASCII_WHITE_INDEX = len(ASCII_CHARS)-1` in the source. -/
def ASCII_WHITE_INDEX : Nat := ASCII_CHARS.length - 1

/-- The ramp index computed for one grayscale pixel inside
`pixels_to_ascii_chars`:
`divisor = 255//(len(ASCII_CHARS)-2)+1`, then
`pixel//divisor if pixel != 255 else ASCII_WHITE_INDEX`. -/
def ramp_index (pixel : Nat) : Nat :=
  let divisor := 255 / (ASCII_CHARS.length - 2) + 1
  if pixel ≠ 255 then pixel / divisor else ASCII_WHITE_INDEX

/-- `pixels_to_ascii_chars`: map each grayscale intensity of the flat
pixel stream to its ramp character. -/
def pixels_to_ascii_chars (pixels : List Nat) : List Char :=
  pixels.map (fun pixel => ASCII_CHARS.getD (ramp_index pixel) ' ')

/-- Closed form of `ramp_index`: the divisor evaluates to `19` and the
white index to `15`. -/
lemma ramp_index_eq (p : Nat) : ramp_index p = if p = 255 then 15 else p / 19 := by
  by_cases h : p = 255 <;>
    simp [ramp_index, ASCII_CHARS, ASCII_WHITE_INDEX, h]

/-- C1: with a ramp of length 16 the divisor is `255/14 + 1 = 19`; a pixel
`p ∈ [0,255]` quantizes to ramp index 15 when `p = 255` and to `p / 19`
otherwise; on the pixel sequence `[0, 128, 255, 64]` the produced indices
are `0, 6, 15, 3`. -/
theorem quantization_rule :
    (255 / (ASCII_CHARS.length - 2) + 1 = 19)
    ∧ (∀ p : Nat, p ≤ 255 → ramp_index p = if p = 255 then 15 else p / 19)
    ∧ [0, 128, 255, 64].map ramp_index = [0, 6, 15, 3] := by
  refine ⟨by decide, fun p _ => ramp_index_eq p, by decide⟩

/-- Witness for `quantization_rule` at the concrete intensity 128. -/
theorem quantization_rule_witness :
    (128 : Nat) ≤ 255 ∧ ramp_index 128 = if 128 = 255 then 15 else 128 / 19 :=
  ⟨by decide, quantization_rule.2.1 128 (by decide)⟩

/-- C2: the quantizer is monotone: `p1 ≤ p2 ≤ 255` implies
`ramp_index p1 ≤ ramp_index p2`, and 255 maps to the lightest (last)
ramp index. -/
theorem ramp_index_monotone (p1 p2 : Nat) (h12 : p1 ≤ p2) (h2 : p2 ≤ 255) :
    ramp_index p1 ≤ ramp_index p2 ∧ ramp_index 255 = ASCII_CHARS.length - 1 := by
  refine ⟨?_, by decide⟩
  rw [ramp_index_eq, ramp_index_eq]
  by_cases hp2 : p2 = 255
  · subst hp2
    rw [if_pos rfl]
    by_cases hp1 : p1 = 255
    · simp [hp1]
    · rw [if_neg hp1]
      have h13 : p1 / 19 ≤ 255 / 19 := Nat.div_le_div_right h12
      omega
  · have hp1 : p1 ≠ 255 := by omega
    simp only [hp1, hp2, if_false]
    exact Nat.div_le_div_right h12

/-- Witness for `ramp_index_monotone` at `p1 = 64`, `p2 = 254`. -/
theorem ramp_index_monotone_witness :
    ramp_index 64 ≤ ramp_index 254 ∧ ramp_index 255 = ASCII_CHARS.length - 1 :=
  ramp_index_monotone 64 254 (by decide) (by decide)

/-- C10: for every intensity `p ∈ [0,255]` the computed ramp index is in
bounds for the 16-element ramp, and the index `rampLength - 2 = 14`
(the glyph `"."`) is never produced. -/
theorem ramp_index_safe (p : Nat) (hp : p ≤ 255) :
    ramp_index p < ASCII_CHARS.length ∧ ramp_index p ≠ ASCII_CHARS.length - 2 := by
  rw [ramp_index_eq]
  by_cases h : p = 255
  · simp [h, ASCII_CHARS]
  · have hle : p ≤ 254 := by omega
    have h13 : p / 19 ≤ 254 / 19 := Nat.div_le_div_right hle
    simp only [h, if_false]
    constructor
    · show p / 19 < ASCII_CHARS.length
      have : ASCII_CHARS.length = 16 := by decide
      omega
    · show p / 19 ≠ ASCII_CHARS.length - 2
      have : ASCII_CHARS.length = 16 := by decide
      omega

/-- Witness for `ramp_index_safe` at `p = 254`. -/
theorem ramp_index_safe_witness :
    ramp_index 254 < ASCII_CHARS.length ∧ ramp_index 254 ≠ ASCII_CHARS.length - 2 :=
  ramp_index_safe 254 (by decide)

/-! ## Images, fonts and the aspect-corrected resize -/

/-- A raster image: dimensions plus a flat row-major grid of grayscale
intensities.  PIL's `Image` restricted to what the pipeline reads. -/
structure RasterImage where
  width : Nat
  height : Nat
  data : List Nat
deriving DecidableEq

/-- The font-metrics collaborator: `bboxRight s` models `font.getbbox(s)[2]`
and `bboxBottom s` models `font.getbbox(s)[3]` (PIL reports integer pixel
bounds for a string at the fixed point size). -/
structure Font where
  bboxRight : List Char → Nat
  bboxBottom : List Char → Nat

/-- `calc_font_aspect_ratio`: `Mbox_height / Mbox_width` measured on the
reference glyph `"M"`. -/
def calc_font_aspect_ratio (font : Font) : ℚ :=
  (font.bboxBottom ['M'] : ℚ) / (font.bboxRight ['M'] : ℚ)

/-- Python's built-in `round` (used as `x.__round__()` in `resize`):
round to nearest integer, ties to the even integer. -/
def roundHalfEven (q : ℚ) : ℤ :=
  let f : ℤ := ⌊q⌋
  let r : ℚ := q - (f : ℚ)
  if r < 1/2 then f
  else if 1/2 < r then f + 1
  else if Even f then f else f + 1

/-- `round` on an integer value is the identity. -/
lemma roundHalfEven_intCast (n : ℤ) : roundHalfEven (n : ℚ) = n := by
  unfold roundHalfEven
  norm_num

/-- `resize(image, new_width)` from the source.  `resampleData` models the
pixel resampling done by PIL's `Image.resize` (an external collaborator);
the resized image carries exactly the requested dimensions.  The source
returns the input unchanged when `new_width` is `None` or `≤ 0`, and
otherwise computes `new_height = 1/font_aspect_ratio * (new_width *
image_aspect_ratio)` and rounds both dimensions with Python `round`. -/
def resize (resampleData : RasterImage → Nat → Nat → List Nat)
    (font : Font) (image : RasterImage) (new_width : Option ℤ) : RasterImage :=
  match new_width with
  | none => image
  | some w =>
    if w ≤ 0 then image
    else
      let font_aspect_ratio : ℚ := calc_font_aspect_ratio font
      let image_aspect_ratio : ℚ := (image.height : ℚ) / (image.width : ℚ)
      let new_height : ℚ := (w : ℚ) * image_aspect_ratio
      let new_height : ℚ := 1 / font_aspect_ratio * new_height
      let rw := (roundHalfEven (w : ℚ)).toNat
      let rh := (roundHalfEven new_height).toNat
      { width := rw, height := rh, data := resampleData image rw rh }

/-- The `resize_image_width` handling of `get_user_config`: when the `-w`
argument is absent the target width defaults to the source image's own
width (not to `None`). -/
def config_new_image_width (resize_image_width : Option ℤ) (image : RasterImage) : ℤ :=
  match resize_image_width with
  | some wi => wi
  | none => image.width

/-- The resize step exactly as `main` performs it: `resize(image,
new_image_width)` with the width coming from `get_user_config`. -/
def pipeline_resized (resampleData : RasterImage → Nat → Nat → List Nat)
    (font : Font) (resize_image_width : Option ℤ) (image : RasterImage) : RasterImage :=
  resize resampleData font image (some (config_new_image_width resize_image_width image))

/-- Shared dimension computation for a positive target width. -/
lemma resize_dims_aux (rd : RasterImage → Nat → Nat → List Nat) (font : Font)
    (img : RasterImage) (W : ℤ) (hW : 0 < W) :
    (resize rd font img (some W)).width = W.toNat
    ∧ (resize rd font img (some W)).height =
        (roundHalfEven ((W : ℚ) * ((img.height : ℚ) / (img.width : ℚ)) /
          calc_font_aspect_ratio font)).toNat := by
  have hne : ¬ W ≤ 0 := by omega
  simp only [resize, if_neg hne]
  refine ⟨by rw [roundHalfEven_intCast], ?_⟩
  rw [one_div_mul_eq_div]

/-- C3: `resize(image, None)` and `resize(image, w)` with `w ≤ 0` return
the input image itself — same dimensions and same pixel data, no error. -/
theorem resize_noop_identity (rd : RasterImage → Nat → Nat → List Nat)
    (font : Font) (image : RasterImage) :
    resize rd font image none = image
    ∧ ∀ w : ℤ, w ≤ 0 → resize rd font image (some w) = image := by
  refine ⟨rfl, fun w hw => ?_⟩
  simp only [resize, if_pos hw]

/-- Concrete collaborators used by witnesses: a resampler that produces an
empty pixel grid, and a font whose every bounding box is 15 wide and 30
tall (aspect ratio 2). -/
def resample0 : RasterImage → Nat → Nat → List Nat := fun _ _ _ => []

def font0 : Font := ⟨fun _ => 15, fun _ => 30⟩

def img300 : RasterImage := ⟨300, 150, []⟩

/-- Witness for `resize_noop_identity` at width `-3` on a concrete image. -/
theorem resize_noop_identity_witness :
    resize resample0 font0 img300 none = img300
    ∧ ((-3 : ℤ) ≤ 0 ∧ resize resample0 font0 img300 (some (-3)) = img300) :=
  ⟨(resize_noop_identity resample0 font0 img300).1,
   by decide, (resize_noop_identity resample0 font0 img300).2 (-3) (by decide)⟩

/-- C4: for a positive target width `W` the resized image is exactly `W`
wide, and its height is `round((W * (h/w)) / fontAspect)` with
`fontAspect = MboxHeight / MboxWidth` and Python's half-to-even
rounding. -/
theorem resize_dimension_formula (rd : RasterImage → Nat → Nat → List Nat)
    (font : Font) (img : RasterImage) (W : ℤ) (hW : 0 < W) :
    (resize rd font img (some W)).width = W.toNat
    ∧ (resize rd font img (some W)).height =
        (roundHalfEven ((W : ℚ) * ((img.height : ℚ) / (img.width : ℚ)) /
          calc_font_aspect_ratio font)).toNat :=
  resize_dims_aux rd font img W hW

/-- Witness for `resize_dimension_formula` at target width 40. -/
theorem resize_dimension_formula_witness :
    (0 : ℤ) < 40
    ∧ ((resize resample0 font0 img300 (some 40)).width = (40 : ℤ).toNat
      ∧ (resize resample0 font0 img300 (some 40)).height =
          (roundHalfEven ((40 : ℚ) * ((img300.height : ℚ) / (img300.width : ℚ)) /
            calc_font_aspect_ratio font0)).toNat) :=
  ⟨by decide, resize_dimension_formula resample0 font0 img300 40 (by decide)⟩

/-- C5 counterexample: with `resizeWidth` unset, `get_user_config` defaults
the target width to the image's own width, so `main` still runs the
aspect-corrected resize.  On a 300×150 source with a font of aspect ratio
2, the image entering the quantizer is 300×75, not 300×150. -/
theorem pipeline_unset_width_cex :
    (pipeline_resized resample0 font0 none img300).width = 300
    ∧ (pipeline_resized resample0 font0 none img300).height = 75
    ∧ (pipeline_resized resample0 font0 none img300).height ≠ 150 := by
  have haux := resize_dims_aux resample0 font0 img300 300 (by decide)
  have hp : pipeline_resized resample0 font0 none img300
      = resize resample0 font0 img300 (some 300) := rfl
  have harg : ((300 : ℤ) : ℚ) * ((img300.height : ℚ) / (img300.width : ℚ)) /
      calc_font_aspect_ratio font0 = ((75 : ℤ) : ℚ) := by
    show ((300 : ℤ) : ℚ) * (((150 : ℕ) : ℚ) / ((300 : ℕ) : ℚ)) /
      (((30 : ℕ) : ℚ) / ((15 : ℕ) : ℚ)) = ((75 : ℤ) : ℚ)
    norm_num
  have hh : (pipeline_resized resample0 font0 none img300).height = 75 := by
    rw [hp, haux.2, harg, roundHalfEven_intCast]
    rfl
  exact ⟨by rw [hp, haux.1]; decide, hh, by rw [hh]; decide⟩

/-- C5 amended: with `resizeWidth` unset the pipeline resizes to the
source's own width: the width is unchanged but the height becomes
`round(h / fontAspect)` (aspect correction still applies). -/
theorem pipeline_unset_width_dims (rd : RasterImage → Nat → Nat → List Nat)
    (font : Font) (img : RasterImage) (h : 0 < img.width) :
    (pipeline_resized rd font none img).width = img.width
    ∧ (pipeline_resized rd font none img).height =
        (roundHalfEven ((img.height : ℚ) / calc_font_aspect_ratio font)).toNat := by
  have hW : (0 : ℤ) < (img.width : ℤ) := by exact_mod_cast h
  have haux := resize_dims_aux rd font img (img.width : ℤ) hW
  have hp : pipeline_resized rd font none img
      = resize rd font img (some (img.width : ℤ)) := rfl
  rw [hp]
  refine ⟨by rw [haux.1, Int.toNat_natCast], ?_⟩
  rw [haux.2]
  have hw0 : ((img.width : ℚ)) ≠ 0 := Nat.cast_ne_zero.mpr (by omega)
  have : ((img.width : ℤ) : ℚ) * ((img.height : ℚ) / (img.width : ℚ)) /
      calc_font_aspect_ratio font
      = (img.height : ℚ) / calc_font_aspect_ratio font := by
    rw [Int.cast_natCast, ← mul_div_assoc, mul_div_cancel_left₀ _ hw0]
  rw [this]

/-- Witness for `pipeline_unset_width_dims` on the concrete 300×150 image. -/
theorem pipeline_unset_width_dims_witness :
    0 < img300.width
    ∧ ((pipeline_resized resample0 font0 none img300).width = img300.width
      ∧ (pipeline_resized resample0 font0 none img300).height =
          (roundHalfEven ((img300.height : ℚ) / calc_font_aspect_ratio font0)).toNat) :=
  ⟨by decide, pipeline_unset_width_dims resample0 font0 img300 (by decide)⟩

/-! ## The line assembler (`generate_ascii_art`) -/

/-- The chunking loop of `generate_ascii_art`: `for i in
range(0, len(ascii_str), img_width)` slices `ascii_str[i:i+img_width]`.
Each iteration takes the next `w` characters; the loop body never checks
that a full `w` characters remain. -/
def chunk_lines (s : List Char) (w : Nat) : List (List Char) :=
  if h : s = [] ∨ w = 0 then []
  else s.take w :: chunk_lines (s.drop w) w
termination_by s.length
decreasing_by
  push_neg at h
  have hs : 0 < s.length := List.length_pos.mpr h.1
  have hw : 0 < w := Nat.pos_of_ne_zero h.2
  simp only [List.length_drop]
  omega

lemma chunk_lines_nil (w : Nat) : chunk_lines [] w = [] := by
  rw [chunk_lines]
  simp

lemma chunk_lines_cons (s : List Char) (w : Nat) (hw : w ≠ 0) (hs : s ≠ []) :
    chunk_lines s w = s.take w :: chunk_lines (s.drop w) w := by
  rw [chunk_lines]
  simp [hw, hs]

/-- `generate_ascii_art` after grayscale conversion (the PIL `"L"`
conversion is an external pixel-wise map): quantize the flat pixel stream,
then accumulate `ascii_img_text += chunk + "\n"` per chunk of `img_width`
characters. -/
def generate_ascii_art (image : RasterImage) : List Char :=
  (chunk_lines (pixels_to_ascii_chars image.data) image.width).foldl
    (fun acc line => acc ++ line ++ ['\n']) []

/-- Accumulating `acc ++ line ++ "\n"` over all lines produces the
concatenation of the newline-terminated lines. -/
lemma foldl_append_terminator (ls : List (List Char)) (acc : List Char) :
    ls.foldl (fun acc line => acc ++ line ++ ['\n']) acc
      = acc ++ (ls.map (fun line => line ++ ['\n'])).flatten := by
  induction ls generalizing acc with
  | nil => simp
  | cons c cs ih =>
    simp only [List.foldl_cons, List.map_cons, List.flatten_cons, ih]
    simp [List.append_assoc]

/-- When the stream length is exactly `w * h` with `w ≥ 1`, the chunking
loop yields `h` chunks of exactly `w` characters. -/
lemma chunk_lines_exact (w : Nat) (hw : 1 ≤ w) :
    ∀ (h : Nat) (s : List Char), s.length = w * h →
      (chunk_lines s w).length = h ∧ ∀ c ∈ chunk_lines s w, c.length = w := by
  intro h
  induction h with
  | zero =>
    intro s hs
    have hs0 : s = [] := List.length_eq_zero.mp (by omega)
    subst hs0
    simp [chunk_lines_nil]
  | succ n ih =>
    intro s hs
    have hw0 : w ≠ 0 := by omega
    have hwle : w ≤ s.length := by
      rw [hs, Nat.mul_succ]
      omega
    have hs0 : s ≠ [] := by
      intro hnil
      rw [hnil] at hwle
      simp at hwle
      omega
    rw [chunk_lines_cons s w hw0 hs0]
    have hlen_drop : (s.drop w).length = w * n := by
      rw [List.length_drop, hs, Nat.mul_succ]
      omega
    obtain ⟨ihl, ihc⟩ := ih (s.drop w) hlen_drop
    refine ⟨by simp [ihl], ?_⟩
    intro c hc
    rcases List.mem_cons.mp hc with rfl | hc
    · simp only [List.length_take]
      omega
    · exact ihc c hc

/-- C6: when the quantized stream has length `width * height` and
`width ≥ 1`, the assembled document has exactly `height` lines, each
line (pre-trim) has exactly `width` characters, and the document text is
the concatenation of the lines each followed by a single newline. -/
theorem assembled_document_invariant (img : RasterImage) (hw : 1 ≤ img.width)
    (hlen : img.data.length = img.width * img.height) :
    (chunk_lines (pixels_to_ascii_chars img.data) img.width).length = img.height
    ∧ (∀ line ∈ chunk_lines (pixels_to_ascii_chars img.data) img.width,
        line.length = img.width)
    ∧ generate_ascii_art img
        = ((chunk_lines (pixels_to_ascii_chars img.data) img.width).map
            (fun line => line ++ ['\n'])).flatten := by
  have hlen' : (pixels_to_ascii_chars img.data).length = img.width * img.height := by
    simpa [pixels_to_ascii_chars] using hlen
  obtain ⟨h1, h2⟩ := chunk_lines_exact img.width hw img.height
    (pixels_to_ascii_chars img.data) hlen'
  exact ⟨h1, h2, by simpa [generate_ascii_art] using
    foldl_append_terminator (chunk_lines (pixels_to_ascii_chars img.data) img.width) []⟩

/-- The spec's 2×2 concrete scenario image with pixels `[0, 128, 255, 64]`. -/
def img2 : RasterImage := ⟨2, 2, [0, 128, 255, 64]⟩

/-- Witness for `assembled_document_invariant` on the 2×2 scenario image. -/
theorem assembled_document_invariant_witness :
    1 ≤ img2.width ∧ img2.data.length = img2.width * img2.height
    ∧ ((chunk_lines (pixels_to_ascii_chars img2.data) img2.width).length = img2.height
      ∧ (∀ line ∈ chunk_lines (pixels_to_ascii_chars img2.data) img2.width,
          line.length = img2.width)
      ∧ generate_ascii_art img2
          = ((chunk_lines (pixels_to_ascii_chars img2.data) img2.width).map
              (fun line => line ++ ['\n'])).flatten) :=
  ⟨by decide, by decide, assembled_document_invariant img2 (by decide) (by decide)⟩

lemma getLast_q_cons {α : Type} (x : α) {l : List α} (h : l ≠ []) :
    (x :: l).getLast? = l.getLast? := by
  cases l with
  | nil => exact absurd rfl h
  | cons y ys => rfl

/-- On a stream whose length is not a multiple of `w`, the chunking loop
produces `len / w` full chunks followed by one short final chunk, the
remainder of the stream — with no failure of any kind. -/
lemma chunk_lines_mismatch (w : Nat) (hw : 1 ≤ w) :
    ∀ (n : Nat) (s : List Char), s.length = n → s.length % w ≠ 0 →
      (chunk_lines s w).length = s.length / w + 1
      ∧ (∀ c ∈ (chunk_lines s w).dropLast, c.length = w)
      ∧ (chunk_lines s w).getLast? = some (s.drop (w * (s.length / w))) := by
  intro n
  induction n using Nat.strong_induction_on with
  | _ n ih =>
    intro s hn hmod
    have hw0 : w ≠ 0 := by omega
    have hs0 : s ≠ [] := by
      intro hnil
      apply hmod
      rw [hnil]
      simp
    rw [chunk_lines_cons s w hw0 hs0]
    by_cases hlt : s.length < w
    · have hdrop : s.drop w = [] := List.drop_eq_nil_of_le (by omega)
      have hdiv : s.length / w = 0 := Nat.div_eq_of_lt hlt
      have htake : s.take w = s := List.take_of_length_le (by omega)
      rw [hdrop, chunk_lines_nil, hdiv, htake]
      simp
    · push_neg at hlt
      have hdlen : (s.drop w).length = s.length - w := List.length_drop w s
      have hmod' : (s.drop w).length % w ≠ 0 := by
        rw [hdlen, ← Nat.mod_eq_sub_mod hlt]
        exact hmod
      obtain ⟨ih1, ih2, ih3⟩ := ih (s.drop w).length (by rw [hdlen]; omega)
        (s.drop w) rfl hmod'
      have hdivsucc : s.length / w = (s.drop w).length / w + 1 := by
        rw [hdlen]
        exact Nat.div_eq_sub_div (by omega) hlt
      have hchne : chunk_lines (s.drop w) w ≠ [] := by
        intro hnil
        rw [hnil] at ih1
        simp at ih1
      refine ⟨?_, ?_, ?_⟩
      · simp only [List.length_cons, ih1, hdivsucc]
      · intro c hc
        rw [List.dropLast_cons_of_ne_nil hchne] at hc
        rcases List.mem_cons.mp hc with rfl | hc
        · simp only [List.length_take]
          omega
        · exact ih2 c hc
      · rw [getLast_q_cons _ hchne, ih3, List.drop_drop, hdivsucc,
          Nat.mul_succ, Nat.add_comm]

/-- C7 counterexample: a 3-character stream with line length 2 is not an
exact multiple, yet the assembler does not fail: it returns a full chunk
followed by a silently shortened final line of 1 character. -/
theorem assembler_mismatch_cex :
    (['#', '#', '#'] : List Char).length % 2 ≠ 0
    ∧ chunk_lines ['#', '#', '#'] 2 = [['#', '#'], ['#']] := by
  refine ⟨by decide, ?_⟩
  have e1 : (['#', '#', '#'] : List Char).drop 2 = ['#'] := rfl
  rw [chunk_lines_cons _ _ (by decide) (by decide), e1,
    chunk_lines_cons _ _ (by decide) (by decide)]
  have e2 : (['#'] : List Char).drop 2 = [] := rfl
  rw [e2, chunk_lines_nil]
  decide

/-- C7 amended: when the flat stream's length is not an exact multiple of
the line length, the assembler does not fail — it silently emits
`len / w` full lines and a shorter final line holding the `len mod w`
leftover characters. -/
theorem assembler_mismatch_short_final_line (s : List Char) (w : Nat)
    (hw : 1 ≤ w) (hmod : s.length % w ≠ 0) :
    (chunk_lines s w).length = s.length / w + 1
    ∧ (∀ c ∈ (chunk_lines s w).dropLast, c.length = w)
    ∧ (chunk_lines s w).getLast? = some (s.drop (w * (s.length / w)))
    ∧ (s.drop (w * (s.length / w))).length = s.length % w := by
  obtain ⟨h1, h2, h3⟩ := chunk_lines_mismatch w hw s.length s rfl hmod
  refine ⟨h1, h2, h3, ?_⟩
  rw [List.length_drop]
  have hdm := Nat.div_add_mod s.length w
  exact Nat.sub_eq_of_eq_add (by omega)

/-- Witness for `assembler_mismatch_short_final_line` on the 3-character
stream with line length 2. -/
theorem assembler_mismatch_short_final_line_witness :
    1 ≤ 2 ∧ (['#', '#', '#'] : List Char).length % 2 ≠ 0
    ∧ ((chunk_lines ['#', '#', '#'] 2).length = (['#', '#', '#'] : List Char).length / 2 + 1
      ∧ (∀ c ∈ (chunk_lines ['#', '#', '#'] 2).dropLast, c.length = 2)
      ∧ (chunk_lines ['#', '#', '#'] 2).getLast?
          = some ((['#', '#', '#'] : List Char).drop
              (2 * ((['#', '#', '#'] : List Char).length / 2)))
      ∧ (((['#', '#', '#'] : List Char).drop
          (2 * ((['#', '#', '#'] : List Char).length / 2))).length
          = (['#', '#', '#'] : List Char).length % 2)) :=
  ⟨by decide, by decide,
   assembler_mismatch_short_final_line ['#', '#', '#'] 2 (by decide) (by decide)⟩

/-! ## Renderer canvas measurement -/

/-- `calc_widest_line_in_pixels`: the bounding-box width of the widest
line.  `max(lines, key=...)` raises `ValueError` on an empty sequence,
modelled as `none`; `int(ceil(_))` on PIL's integer bound is the
identity. -/
def calc_widest_line_in_pixels (lines : List (List Char)) (font : Font) : Option Nat :=
  (lines.map font.bboxRight).max?

/-- `calc_tallest_line_in_pixels`: the bounding-box height of the tallest
line; again `max` over an empty sequence raises, modelled as `none`. -/
def calc_tallest_line_in_pixels (lines : List (List Char)) (font : Font) : Option Nat :=
  (lines.map font.bboxBottom).max?

/-- `sum_pixel_height_for_all_lines`: the tallest line's height times the
line count (`int(ceil(...))` is the identity on naturals), paired with
that per-line height. -/
def sum_pixel_height_for_all_lines (lines : List (List Char)) (font : Font) :
    Option (Nat × Nat) :=
  (calc_tallest_line_in_pixels lines font).map (fun mh => (mh * lines.length, mh))

/-- Modelled from the spec: canvas height is the tallest line's
bounding-box height — falling back to the reference glyph `"M"` when the
line sequence is empty — multiplied by the line count and
ceiling-rounded (the identity on naturals). -/
def spec_canvas_height (lines : List (List Char)) (font : Font) : Nat :=
  ((lines.map font.bboxBottom).max?.getD (font.bboxBottom ['M'])) * lines.length

/-- Modelled from the spec: canvas width is the widest line's
bounding-box width, ceiling-rounded (the identity on naturals). -/
def spec_canvas_width (lines : List (List Char)) (font : Font) : Nat :=
  (lines.map font.bboxRight).max?.getD 0

/-- C8 counterexample: on the empty line sequence the code's measurement
fails (`max` over an empty sequence), it does not fall back to the
reference glyph `"M"` as the claim states. -/
theorem renderer_canvas_empty_cex :
    sum_pixel_height_for_all_lines [] font0 = none
    ∧ calc_widest_line_in_pixels [] font0 = none
    ∧ (sum_pixel_height_for_all_lines [] font0).map Prod.fst
        ≠ some (spec_canvas_height [] font0) := by
  exact ⟨rfl, rfl, by decide⟩

/-- C8 amended: for every nonempty line sequence the canvas height is the
tallest line's bounding-box height times the line count and the canvas
width is the widest line's bounding-box width (both ceilings are
identities on integer font metrics); on the empty sequence both
measurements fail instead of falling back to the reference glyph. -/
theorem renderer_canvas_dimensions (font : Font) (lines : List (List Char))
    (hne : lines ≠ []) :
    ((sum_pixel_height_for_all_lines lines font).map Prod.fst
        = some (spec_canvas_height lines font)
      ∧ calc_widest_line_in_pixels lines font = some (spec_canvas_width lines font))
    ∧ (sum_pixel_height_for_all_lines [] font = none
      ∧ calc_widest_line_in_pixels [] font = none) := by
  refine ⟨⟨?_, ?_⟩, rfl, rfl⟩
  · obtain ⟨mb, hmb⟩ : ∃ m, (lines.map font.bboxBottom).max? = some m := by
      cases hm : (lines.map font.bboxBottom).max? with
      | none => exact absurd (by simpa using List.max?_eq_none_iff.mp hm) hne
      | some m => exact ⟨m, rfl⟩
    simp [sum_pixel_height_for_all_lines, calc_tallest_line_in_pixels,
      spec_canvas_height, hmb]
  · obtain ⟨mr, hmr⟩ : ∃ m, (lines.map font.bboxRight).max? = some m := by
      cases hm : (lines.map font.bboxRight).max? with
      | none => exact absurd (by simpa using List.max?_eq_none_iff.mp hm) hne
      | some m => exact ⟨m, rfl⟩
    simp [calc_widest_line_in_pixels, spec_canvas_width, hmr]

/-- Witness for `renderer_canvas_dimensions` on a concrete two-line
document with the constant-metric font. -/
theorem renderer_canvas_dimensions_witness :
    (['a', 'b'] :: ['c'] :: [] : List (List Char)) ≠ []
    ∧ (((sum_pixel_height_for_all_lines [['a', 'b'], ['c']] font0).map Prod.fst
          = some (spec_canvas_height [['a', 'b'], ['c']] font0)
        ∧ calc_widest_line_in_pixels [['a', 'b'], ['c']] font0
          = some (spec_canvas_width [['a', 'b'], ['c']] font0))
      ∧ (sum_pixel_height_for_all_lines [] font0 = none
        ∧ calc_widest_line_in_pixels [] font0 = none)) :=
  ⟨by decide, renderer_canvas_dimensions font0 [['a', 'b'], ['c']] (by decide)⟩

/-! ## Font resolution -/

/-- Python exceptions raised during font-filename resolution. -/
inductive PyError where
  | fileNotFoundError (msg : String)
  | unboundLocalError (var : String)
deriving DecidableEq

/-- The platform table of `get_monospace_font_filename`: the candidate
list assigned for each recognized `platform.system()` value; for any
other value the local `possible_fonts` is never assigned. -/
def possible_fonts_for (operating_system : String) : Option (List String) :=
  if operating_system = "Windows" then
    some ["c:/windows/fonts/consola.ttf"]
  else if operating_system = "Linux" then
    some ["/usr/share/fonts/truetype/freefont/FreeMono.ttf",
          "/usr/share/fonts/truetype/ubuntu/UbuntuMono-R.ttf"]
  else if operating_system = "Darwin" then
    some ["/System/Library/Fonts/Monaco.ttf"]
  else none

/-- `get_monospace_font_filename`: return the first existing candidate;
raise `FileNotFoundError` when candidates exist but none is on disk.  On
an unrecognized platform the `for font_file in possible_fonts` line
itself raises `UnboundLocalError`, because `possible_fonts` was never
assigned — control never reaches the intended `FileNotFoundError`. -/
def get_monospace_font_filename (operating_system : String)
    (file_exists : String → Bool) : Except PyError String :=
  match possible_fonts_for operating_system with
  | none => .error (.unboundLocalError "possible_fonts")
  | some possible_fonts =>
    match possible_fonts.find? file_exists with
    | some f => .ok f
    | none => .error (.fileNotFoundError
        "Can't find a suitable font file for your operating system.")

/-- The font-filename resolution of `get_font_object` (the TrueType load
itself is external): prefer an existing user-specified font file,
otherwise fall back to the platform default.  The Boolean records whether
the degradation warning is printed (user font set but missing). -/
def get_font_object_filename (user_font_file : String)
    (file_exists : String → Bool) (operating_system : String) :
    Except PyError (String × Bool) :=
  if 0 < user_font_file.length ∧ file_exists user_font_file then
    .ok (user_font_file, false)
  else
    match get_monospace_font_filename operating_system file_exists with
    | .ok f => .ok (f, decide (0 < user_font_file.length) && !(file_exists user_font_file))
    | .error e => .error e

/-- C9: a missing user font degrades to the platform default with the
warning; on a recognized platform with no candidate on disk the failure
is the distinguishable `FileNotFoundError`; but on an unrecognized
platform the code fails with `UnboundLocalError` — not the
distinguishable font-resolution error the claim states. -/
theorem font_resolution_behaviour :
    get_font_object_filename "missing.ttf"
        (fun s => s == "/usr/share/fonts/truetype/freefont/FreeMono.ttf") "Linux"
      = .ok ("/usr/share/fonts/truetype/freefont/FreeMono.ttf", true)
    ∧ get_monospace_font_filename "Haiku" (fun _ => false)
      = .error (.unboundLocalError "possible_fonts")
    ∧ get_monospace_font_filename "Linux" (fun _ => false)
      = .error (.fileNotFoundError
          "Can't find a suitable font file for your operating system.") := by
  exact ⟨rfl, rfl, rfl⟩

end AsciiArt
